import Mathlib

/-!
Verification of the knowledge-search subsystem of the `ai-mcp-tools` repository
(`app/mcp/search_knowledge_content.py` and `app/mcp/search_knowledge_file.py`).

Modelling conventions
- Python `str` values are modelled as `List Char` (`Str`): Python indexes strings by
  code point, which matches list indices exactly.
- Python `float` arithmetic is modelled as exact rational arithmetic over `ℚ`.
  All scoring constants in the source are short decimal literals; IEEE-754
  rounding of those literals is not modelled.
- `str.lower()` is modelled per character for ASCII letters (the repository's
  keyword/pattern handling is what the claims concern); non-ASCII characters are
  left unchanged.
- The filesystem is modelled as an inductive tree (`FSEntry`): regular files carry
  a `FileData` describing what the process can observe of them (text lines as
  `readlines` would return them, raw-plus-extracted views for PDFs, or an
  unreadable marker standing for any `open`/decode exception).  Directory entries
  carry a readability flag standing for `PermissionError` on `iterdir`.
  `stat` metadata (size, mtime) is not modelled: no claim mentions it.
- Python's `re` module only ever receives two kinds of patterns in this code:
  `re.escape(keyword)` (a literal, modelled as substring scanning) and a file
  pattern with each `*` replaced by `.*` (modelled by a tiny token matcher over
  literals, `.` and `.*`; this is faithful for patterns that contain no other
  regex metacharacter, which is the only situation the spec discusses).
-/

/-- Python `str` as a list of code points. -/
abbrev Str := List Char

/-- The ASCII upper/lower case table used to model `str.lower()`. -/
def upLow : List (Char × Char) :=
  [('A', 'a'), ('B', 'b'), ('C', 'c'), ('D', 'd'), ('E', 'e'), ('F', 'f'),
   ('G', 'g'), ('H', 'h'), ('I', 'i'), ('J', 'j'), ('K', 'k'), ('L', 'l'),
   ('M', 'm'), ('N', 'n'), ('O', 'o'), ('P', 'p'), ('Q', 'q'), ('R', 'r'),
   ('S', 's'), ('T', 't'), ('U', 'u'), ('V', 'v'), ('W', 'w'), ('X', 'x'),
   ('Y', 'y'), ('Z', 'z')]

/-- Lower-case a single character (ASCII model of Python `str.lower`). -/
def lowerChar (c : Char) : Char :=
  ((upLow.find? (fun p => p.1 == c)).map Prod.snd).getD c

/-- `c` is an ASCII uppercase letter. -/
def isUpperA (c : Char) : Bool :=
  upLow.any (fun p => p.1 == c)

/-- Python `s.lower()`. -/
def lowerStr (s : Str) : Str := s.map lowerChar

/-- Python whitespace test for the characters relevant here. -/
def isWs (c : Char) : Bool := c == ' ' || c == '\t' || c == '\n' || c == '\r'

/-- Python `s.rstrip()`: drop trailing whitespace. -/
def rstrip (s : Str) : Str := (s.reverse.dropWhile isWs).reverse

/-- Python `s.strip()`: drop leading and trailing whitespace. -/
def stripStr (s : Str) : Str := (s.dropWhile isWs).reverse.dropWhile isWs |>.reverse

/-- Python `s.split()`: split on whitespace runs, dropping empty pieces. -/
def splitWs (s : Str) : List Str :=
  ((s.splitOnP isWs).filter (fun t => ¬ t.isEmpty))

/-- Python `s.split(sep)` for a single-character separator (used for `'\n'`). -/
def splitOnChar (sep : Char) (s : Str) : List Str := s.splitOn sep

/-- `a` is an initial segment of `b` (decidable, structural). -/
def leadsList : Str → Str → Bool
  | [], _ => true
  | _ :: _, [] => false
  | a :: as, b :: bs => a == b && leadsList as bs

/-- One step of Python's literal `finditer`/`count` scan: start positions of
non-overlapping occurrences of `needle` in the suffix of the haystack beginning
at index `i` (that suffix is the `Str` argument).  After a non-empty match the
scan resumes past it; an empty pattern matches at every position including the
end, as in Python.  Structural recursion on an explicit fuel (any fuel above
the suffix length computes the scan). -/
def occFrom (needle : Str) : Nat → Str → Nat → List Nat
  | 0, _, _ => []
  | _ + 1, [], i => if leadsList needle [] then [i] else []
  | fuel + 1, c :: rest, i =>
    if leadsList needle (c :: rest) then
      if needle.length = 0 then i :: occFrom needle fuel rest (i + 1)
      else i :: occFrom needle fuel ((c :: rest).drop needle.length) (i + needle.length)
    else occFrom needle fuel rest (i + 1)

/-- All start positions of non-overlapping occurrences of `needle` in `hay`,
scanning left to right (Python `finditer` on `re.escape(needle)`). -/
def occurrences (needle hay : Str) : List Nat := occFrom needle (hay.length + 1) hay 0

/-- Python `hay.count(needle)` (non-overlapping occurrence count). -/
def countOcc (needle hay : Str) : Nat := (occurrences needle hay).length

/-- Python `needle in hay` (substring containment). -/
def containsSub (needle : Str) : Str → Bool
  | [] => leadsList needle []
  | c :: rest => leadsList needle (c :: rest) || containsSub needle rest

/-- Tokens of the regular expression obtained from a file pattern by replacing
every `*` with `.*` (`_find_matching_files`): a pattern character is kept as a
literal, `.` is the any-character metacharacter, `*` becomes the `.*` unit. -/
inductive ReTok where
  | lit (c : Char)
  | anyc
  | star
deriving DecidableEq

/-- Translate a (lower-cased) file pattern into the token list of
`pattern_lower.replace(chr(42), chr(46) :: chr(42))` read as a regex.  Faithful
for patterns free of other regex metacharacters. -/
def translateTok (p : Str) : List ReTok :=
  p.map (fun c => if c = '*' then ReTok.star else if c = '.' then ReTok.anyc else ReTok.lit c)

/-- Nondeterministic token-regex matching against some initial segment of the
string (structural recursion on a fuel that any value above
`tokens + string length` saturates: every step shrinks that sum). -/
def reMatchGo : Nat → List ReTok → Str → Bool
  | 0, _, _ => false
  | _ + 1, [], _ => true
  | _ + 1, ReTok.lit _ :: _, [] => false
  | fuel + 1, ReTok.lit c :: ts, d :: ds => c == d && reMatchGo fuel ts ds
  | _ + 1, ReTok.anyc :: _, [] => false
  | fuel + 1, ReTok.anyc :: ts, _ :: ds => reMatchGo fuel ts ds
  | fuel + 1, ReTok.star :: ts, [] => reMatchGo fuel ts []
  | fuel + 1, ReTok.star :: ts, d :: ds =>
    reMatchGo fuel ts (d :: ds) || reMatchGo fuel (ReTok.star :: ts) ds

/-- Python `re.match(regex, s)`: does the token list match some initial segment
of `s` (anchored at the start only)? -/
def reMatchHead (ts : List ReTok) (s : Str) : Bool :=
  reMatchGo (ts.length + s.length + 1) ts s

/-- Token-regex matching against the whole string, fuelled like `reMatchGo`. -/
def reFullGo : Nat → List ReTok → Str → Bool
  | 0, _, _ => false
  | _ + 1, [], s => s.isEmpty
  | _ + 1, ReTok.lit _ :: _, [] => false
  | fuel + 1, ReTok.lit c :: ts, d :: ds => c == d && reFullGo fuel ts ds
  | _ + 1, ReTok.anyc :: _, [] => false
  | fuel + 1, ReTok.anyc :: ts, _ :: ds => reFullGo fuel ts ds
  | fuel + 1, ReTok.star :: ts, [] => reFullGo fuel ts []
  | fuel + 1, ReTok.star :: ts, d :: ds =>
    reFullGo fuel ts (d :: ds) || reFullGo fuel (ReTok.star :: ts) ds

/-- Python `re.fullmatch(regex, s)`: does the token list match the whole of `s`?
(Spec-side definition: the code under audit never calls `fullmatch`.) -/
def reFullMatch (ts : List ReTok) (s : Str) : Bool :=
  reFullGo (ts.length + s.length + 1) ts s

/-- One file pattern against one file name, as `_find_matching_files` tests it:
both are lower-cased, a pattern containing `*` is translated to a regex and
tried with `re.match` (start-anchored prefix match), any other pattern is a
substring test. -/
def patternMatches (p name : Str) : Bool :=
  let pl := lowerStr p
  let nl := lowerStr name
  if pl.contains '*' then reMatchHead (translateTok pl) nl
  else containsSub pl nl

/-- Spec-side variant of `patternMatches` following the claim's words: a pattern
containing `*` must match the WHOLE file name (fully anchored regex). -/
def patternMatchesWhole (p name : Str) : Bool :=
  let pl := lowerStr p
  let nl := lowerStr name
  if pl.contains '*' then reFullMatch (translateTok pl) nl
  else containsSub pl nl

/-- What the process can observe of one regular file. -/
inductive FileData where
  /-- A text file: the list of lines `readlines` returns (line terminators
  included where the file has them).  `errors=chr(105)...` never raises. -/
  | text (lines : List Str)
  /-- A PDF file: `rawLines` is what `open(..., encoding=utf-8, errors=ignore)`
  plus `readlines` would yield for its bytes, `extracted` the text recovered by
  the first available PDF backend (`none`: no backend available / extraction
  failed). -/
  | pdf (rawLines : List Str) (extracted : Option Str)
  /-- `open` raises (permission error, vanished file, ...). -/
  | unreadable
deriving DecidableEq

/-- A directory tree entry.  `readable = false` on a directory models
`PermissionError` from `iterdir`. -/
inductive FSEntry where
  | file (name : Str) (data : FileData)
  | dir (name : Str) (readable : Bool) (children : List FSEntry)

/-- The state of the hard-coded knowledge-base root directory. -/
inductive RootState where
  | missing
  | notDir
  | present (children : List FSEntry) (readable : Bool)

/-- The hard-coded knowledge-base directory path. -/
def knowledgeBaseDir : Str := "/Users/bingosheng/Desktop/知识库".toList

/-- A located candidate file: path, bare name, observable data. -/
structure CandFile where
  path : Str
  name : Str
  data : FileData
deriving DecidableEq

/-- `pathlib.Path.suffix`: the extension of the final component, with the dot,
empty when there is no dot, for a leading-dot-only name, or a trailing dot. -/
def fileSuffix (name : Str) : Str :=
  if name.contains '.' then
    let tailLen := (name.reverse.takeWhile (fun c => c ≠ '.')).length
    if 0 < name.length - tailLen - 1 ∧ tailLen ≠ 0 then
      name.drop (name.length - tailLen - 1)
    else []
  else []

/-- Join a directory path and an entry name (`Path` iteration appends
one separator and the name). -/
def joinPath (p n : Str) : Str := p ++ ('/' :: n)

/-- Python's two-argument `min` on floats, as the source uses it. -/
def pymin (a b : ℚ) : ℚ := if a ≤ b then a else b

/-- The recursive walk of `_find_matching_files.search_directory`: files are
appended when some file pattern matches their name, directories are recursed
into at their position in iteration order; a directory whose listing raises
`PermissionError` is skipped.  No hidden-name filtering is performed here. -/
def findFilesList (pats : List Str) (path : Str) : List FSEntry → List CandFile
  | [] => []
  | FSEntry.file n d :: rest =>
    (if pats.any (fun p => patternMatches p n) then [⟨joinPath path n, n, d⟩] else [])
      ++ findFilesList pats path rest
  | FSEntry.dir n r ch :: rest =>
    (if r then findFilesList pats (joinPath path n) ch else [])
      ++ findFilesList pats path rest

/-- All files the walk can reach (same traversal as `findFilesList`, without the
name filter). -/
def reachableList (path : Str) : List FSEntry → List CandFile
  | [] => []
  | FSEntry.file n d :: rest => ⟨joinPath path n, n, d⟩ :: reachableList path rest
  | FSEntry.dir n r ch :: rest =>
    (if r then reachableList (joinPath path n) ch else []) ++ reachableList path rest

/-- `_extract_pdf_content`: join the backend's page text, split on newlines and
drop blank / whitespace-only lines; an unavailable or failing backend (or an
unreadable file) yields no lines. -/
def pdfExtract (d : FileData) : List Str :=
  match d with
  | FileData.pdf _ (some fullText) =>
    (splitOnChar '\n' fullText).filter (fun l => ¬ (stripStr l).isEmpty)
  | _ => []

/-- The `lines` value `_deep_extract_content` works on: PDF extraction for the
`.pdf` extension, `readlines` (decode errors ignored, so never raising) for
everything else; `none` models `open` raising, which the surrounding
`try/except` turns into an empty result. -/
def extractLines (ext : Str) (d : FileData) : Option (List Str) :=
  if ext = ".pdf".toList then some (pdfExtract d)
  else
    match d with
    | FileData.text ls => some ls
    | FileData.pdf raw _ => some raw
    | FileData.unreadable => none

/-- Relevance components of one content match (`_analyze_match`). -/
structure Relevance where
  score : ℚ
  positionBonus : ℚ
  contextBonus : ℚ
  lengthBonus : ℚ
  densityBonus : ℚ
deriving DecidableEq

/-- Metadata of one content match (`_analyze_match`). -/
structure MatchMeta where
  matchType : Str
  occurrencesInLine : Nat
  matchStart : Nat
  matchEnd : Nat
deriving DecidableEq

/-- Context window of one content match. -/
structure MatchContext where
  before : List Str
  matchedLine : Str
  after : List Str
deriving DecidableEq

/-- One content match of `_deep_extract_content`. -/
structure ContentMatch where
  keyword : Str
  lineNumber : Nat
  exactMatch : Str
  context : MatchContext
  relevance : Relevance
  metadata : MatchMeta
deriving DecidableEq

/-- `_analyze_match`: relevance scoring and metadata for one match at offset
`mStart`..`mEnd` with matched text `grp` in (unlowered) line `line`. -/
def analyzeMatch (mStart mEnd : Nat) (grp line kw : Str) (ctxBefore ctxAfter : Nat) :
    Relevance × MatchMeta :=
  let baseScore : ℚ := 0.4
  let lineLength := line.length
  let positionBonus : ℚ :=
    if mStart = 0 then 0.2
    else if (mStart : ℚ) < (lineLength : ℚ) * 0.3 then 0.1
    else if (mStart : ℚ) > (lineLength : ℚ) * 0.7 then 0.05
    else 0
  let contextBonus := pymin (((ctxBefore + ctxAfter : Nat) : ℚ) * 0.05) 0.2
  let lengthBonus := pymin ((lineLength : ℚ) * 0.001) 0.1
  let keywordCount := countOcc (lowerStr kw) (lowerStr line)
  let densityBonus : ℚ :=
    if keywordCount > 1 then pymin (((keywordCount : ℚ) - 1) * 0.05) 0.15 else 0
  let totalScore := baseScore + positionBonus + contextBonus + lengthBonus + densityBonus
  ({ score := pymin totalScore 1, positionBonus := positionBonus, contextBonus := contextBonus,
     lengthBonus := lengthBonus, densityBonus := densityBonus },
   { matchType := if grp = kw then "whole_word".toList else "partial".toList,
     occurrencesInLine := keywordCount, matchStart := mStart, matchEnd := mEnd })

/-- Assemble the `ContentMatch` for an occurrence at offset `p` of line number
`n` (1-based), including the clamped context window. -/
def buildMatch (lines : List Str) (ctx : Nat) (cs : Bool) (n : Nat) (line : Str)
    (kw : Str) (p : Nat) : ContentMatch :=
  let needle := if cs then kw else lowerStr kw
  let lineToSearch := if cs then line else lowerStr line
  let grp := (lineToSearch.drop p).take needle.length
  let startLine := n - ctx - 1
  let endLine := min lines.length (n + ctx)
  let ctxBefore := (List.range' startLine (n - 1 - startLine)).map (fun i => rstrip (lines.getD i []))
  let ctxAfter := (List.range' n (endLine - n)).map (fun i => rstrip (lines.getD i []))
  let am := analyzeMatch p (p + grp.length) grp line kw ctxBefore.length ctxAfter.length
  { keyword := kw, lineNumber := n, exactMatch := grp,
    context := { before := ctxBefore, matchedLine := rstrip line, after := ctxAfter },
    relevance := am.1, metadata := am.2 }

/-- The unsorted match list of `_deep_extract_content`: every line (1-based), in
order; for each keyword in order; for each occurrence in scan order. -/
def collectMatches (lines : List Str) (kws : List Str) (ctx : Nat) (cs : Bool) :
    List ContentMatch :=
  (List.enumFrom 1 lines).flatMap (fun nl =>
    kws.flatMap (fun kw =>
      (occurrences (if cs then kw else lowerStr kw) (if cs then nl.2 else lowerStr nl.2)).map
        (fun p => buildMatch lines ctx cs nl.1 nl.2 kw p)))

/-- Descending-score comparison used to sort match lists (Python stable sort
with `reverse`, so the stable `mergeSort` under the flipped relation). -/
def scoreGe (a b : ContentMatch) : Bool := decide (b.relevance.score ≤ a.relevance.score)

/-- `_deep_extract_content`: extract lines by format, collect all matches, sort
by descending relevance score, truncate to the per-file cap.  Any read failure
is caught and yields `[]`. -/
def deepExtractContent (ext : Str) (d : FileData) (kws : List Str) (ctx : Nat)
    (cs : Bool) (maxResults : Nat) : List ContentMatch :=
  match extractLines ext d with
  | none => []
  | some lines =>
    if lines.isEmpty then []
    else ((collectMatches lines kws ctx cs).mergeSort scoreGe).take maxResults

/-- Python `round(x, 3)` on the exact rational value (ties of the binary float
representation are not modelled; no claim depends on them). -/
def round3 (q : ℚ) : ℚ := ((round (q * 1000) : ℤ) : ℚ) / 1000

/-- Lexicographic comparison of code-point lists (Python string `<=`). -/
def strLe : Str → Str → Bool
  | [], _ => true
  | _ :: _, [] => false
  | a :: as, b :: bs => if a < b then true else if b < a then false else strLe as bs

/-- Python `sorted` over strings. -/
def sortedStrings (l : List Str) : List Str := l.mergeSort strLe

/-- `file_type` field of `_get_file_detailed_info`: lower-cased suffix, or the
literal `unknown` when there is none. -/
def fileTypeOf (name : Str) : Str :=
  let s := lowerStr (fileSuffix name)
  if s.isEmpty then "unknown".toList else s

/-- File-level metadata echoed in a content-search result
(`_get_file_detailed_info`; `size`/`modified_time` are unmodelled `stat` data). -/
structure FileInfoC where
  name : Str
  path : Str
  fileType : Str
deriving DecidableEq

/-- Per-file summary of a content-search result. -/
structure FileSummary where
  totalMatches : Nat
  uniqueKeywords : List Str
  avgRelevanceScore : ℚ
deriving DecidableEq

/-- One per-file entry of a content-search report. -/
structure ContentFileResult where
  fileInfo : FileInfoC
  contentMatches : List ContentMatch
  summary : FileSummary
deriving DecidableEq

/-- The `statistics` object of a content-search report. -/
structure ContentStats where
  totalFilesScanned : Nat
  filesWithMatches : Nat
  totalMatchesFound : Nat
  uniqueKeywordsMatched : List Str
deriving DecidableEq

/-- The `query` echo of a content-search report. -/
structure ContentQuery where
  keywords : List Str
  filePatterns : List Str
  contextLines : Nat
deriving DecidableEq

/-- A content-search response: either the `success:false` shape with `error`
and `message` strings, or the `success:true` report (the advisory
`recommendations` strings and the human-readable `message` are unmodelled). -/
inductive ContentResponse where
  | fail (error message : Str)
  | ok (query : ContentQuery) (stats : ContentStats) (results : List ContentFileResult)

/-- `success` field of a content-search response. -/
def ContentResponse.isSuccess : ContentResponse → Bool
  | ContentResponse.fail _ _ => false
  | ContentResponse.ok _ _ _ => true

/-- `results` field of a content-search response (empty on failure). -/
def contentResults : ContentResponse → List ContentFileResult
  | ContentResponse.fail _ _ => []
  | ContentResponse.ok _ _ rs => rs

/-- `statistics` field of a content-search response (zeros on failure). -/
def contentStats : ContentResponse → ContentStats
  | ContentResponse.fail _ _ => ⟨0, 0, 0, []⟩
  | ContentResponse.ok _ s _ => s

/-- `[fn.strip() for fn in file_names if fn.strip()]`. -/
def cleanNames (fns : List Str) : List Str :=
  (fns.map stripStr).filter (fun s => ¬ s.isEmpty)

/-- `[kw.strip() for kw in keywords.split() if kw.strip()]`. -/
def cleanKeywords (kws : Str) : List Str :=
  ((splitWs kws).map stripStr).filter (fun s => ¬ s.isEmpty)

/-- The candidate files the content search examines: the pattern-filtered walk
from the hard-coded root (empty when the root listing itself is denied). -/
def contentCandidates (fns : List Str) (root : RootState) : List CandFile :=
  match root with
  | RootState.present children true => findFilesList (cleanNames fns) knowledgeBaseDir children
  | _ => []

/-- Per-candidate step of `search_knowledge_content`: run the deep extraction
and build the per-file entry when it produced any match. -/
def processCandidate (kws : List Str) (ctx : Nat) (cs : Bool) (mx : Nat)
    (f : CandFile) : Option ContentFileResult :=
  let fm := deepExtractContent (lowerStr (fileSuffix f.name)) f.data kws ctx cs mx
  if fm.isEmpty then none
  else some
    { fileInfo := { name := f.name, path := f.path, fileType := fileTypeOf f.name },
      contentMatches := fm,
      summary :=
        { totalMatches := fm.length,
          uniqueKeywords := (fm.map (fun m => m.keyword)).dedup,
          avgRelevanceScore :=
            round3 ((fm.map (fun m => m.relevance.score)).sum / (fm.length : ℚ)) } }

/-- `search_knowledge_content`: validation, candidate location, per-file deep
extraction, statistics.  The results list is the candidates' walk order,
filtered to files with at least one match; no sorting and no global cap are
applied to it.  (The `matching_files` empty early return of the source builds
the identical zero-statistics report, so it needs no separate branch.) -/
def searchKnowledgeContent (fileNames : List Str) (keywords : Str) (contextLines : Nat)
    (caseSensitive : Bool) (maxResultsPerFile : Nat) (root : RootState) : ContentResponse :=
  if ¬ fileNames.any (fun fn => !(stripStr fn).isEmpty) then
    ContentResponse.fail "文件名列表不能为空".toList "请提供有效的文件名列表".toList
  else if (stripStr keywords).isEmpty then
    ContentResponse.fail "关键词不能为空".toList "请提供有效的搜索关键词".toList
  else if (cleanKeywords keywords).isEmpty then
    ContentResponse.fail "无效的关键词".toList "请提供有效的搜索关键词".toList
  else
    match root with
    | RootState.missing =>
      ContentResponse.fail "目录不存在".toList "指定的知识库目录不存在".toList
    | RootState.notDir =>
      ContentResponse.fail "路径不是目录".toList "指定路径不是目录".toList
    | RootState.present _ _ =>
      let keywordList := cleanKeywords keywords
      let matchingFiles := contentCandidates fileNames root
      let results :=
        matchingFiles.filterMap (processCandidate keywordList contextLines caseSensitive maxResultsPerFile)
      ContentResponse.ok
        { keywords := keywordList, filePatterns := cleanNames fileNames,
          contextLines := contextLines }
        { totalFilesScanned := matchingFiles.length,
          filesWithMatches := results.length,
          totalMatchesFound := (results.map (fun r => r.contentMatches.length)).sum,
          uniqueKeywordsMatched :=
            sortedStrings ((results.flatMap (fun r => r.contentMatches.map (fun m => m.keyword))).dedup) }
        results

/-- One match record of the file-level search (`_check_file_matches` /
`_search_file_content`): `mtype` is the `type` field (`filename` or `content`);
filename matches carry `position`, content matches carry `lineNumber` and a
`context` snippet (unused counterpart fields are zero/empty). -/
structure FVMatch where
  mtype : Str
  matchedText : Str
  position : Nat
  lineNumber : Nat
  context : Str
  keyword : Str
deriving DecidableEq

/-- `readlines` of a file opened in text mode with decode errors ignored
(`none`: `open` raises). -/
def readlinesOpt : FileData → Option (List Str)
  | FileData.text ls => some ls
  | FileData.pdf raw _ => some raw
  | FileData.unreadable => none

/-- Inner loop of `_search_file_content` over the occurrences of one keyword in
one line, appending a content match per occurrence; returns the flag of the
`len(matches) > 10` early `return`. -/
def fvAddOcc (kw : Str) (grpLen lineNum : Nat) (line lineToSearch : Str) :
    List Nat → List FVMatch → List FVMatch × Bool
  | [], acc => (acc, false)
  | p :: ps, acc =>
    let startPos := p - 20
    let endPos := min line.length (p + grpLen + 20)
    let snippet := stripStr ((line.take endPos).drop startPos)
    let m : FVMatch :=
      { mtype := "content".toList, matchedText := (lineToSearch.drop p).take grpLen,
        position := 0, lineNumber := lineNum, context := snippet, keyword := kw }
    let acc2 := acc ++ [m]
    if acc2.length > 10 then (acc2, true)
    else fvAddOcc kw grpLen lineNum line lineToSearch ps acc2

/-- Loop of `_search_file_content` over the keyword patterns for one line. -/
def fvKwLoop (cs : Bool) (lineNum : Nat) (line : Str) :
    List Str → List FVMatch → List FVMatch × Bool
  | [], acc => (acc, false)
  | kw :: kws, acc =>
    let needle := if cs then kw else lowerStr kw
    let lineToSearch := if cs then line else lowerStr line
    match fvAddOcc kw needle.length lineNum line lineToSearch (occurrences needle lineToSearch) acc with
    | (acc2, true) => (acc2, true)
    | (acc2, false) => fvKwLoop cs lineNum line kws acc2

/-- Loop of `_search_file_content` over the enumerated lines. -/
def fvLinesLoop (kws : List Str) (cs : Bool) :
    List (Nat × Str) → List FVMatch → List FVMatch
  | [], acc => acc
  | nl :: rest, acc =>
    match fvKwLoop cs nl.1 nl.2 kws acc with
    | (acc2, true) => acc2
    | (acc2, false) => fvLinesLoop kws cs rest acc2

/-- `_search_file_content`: scan the file's lines for keyword occurrences,
stopping soon after ten matches; a failing read yields the matches collected so
far (none, since `open` comes first). -/
def searchFileContentFV (d : FileData) (kws : List Str) (cs : Bool) : List FVMatch :=
  match readlinesOpt d with
  | none => []
  | some lines => fvLinesLoop kws cs (List.enumFrom 1 lines) []

/-- The extensions whose content `_check_file_matches` is willing to read. -/
def readableExts : List Str :=
  [".txt".toList, ".md".toList, ".pdf".toList, ".rst".toList,
   ".py".toList, ".js".toList, ".html".toList, ".css".toList]

/-- `_check_file_matches`: filename occurrences for every keyword, then (when
enabled and the extension is readable) the content matches. -/
def checkFileMatches (name : Str) (d : FileData) (kws : List Str)
    (searchContent cs : Bool) : List FVMatch :=
  let nameToSearch := if cs then name else lowerStr name
  let filenameMatches := kws.flatMap (fun kw =>
    let needle := if cs then kw else lowerStr kw
    (occurrences needle nameToSearch).map (fun p =>
      ({ mtype := "filename".toList, matchedText := (nameToSearch.drop p).take needle.length,
         position := p, lineNumber := 0, context := [], keyword := kw } : FVMatch)))
  if searchContent ∧ lowerStr (fileSuffix name) ∈ readableExts then
    filenameMatches ++ searchFileContentFV d kws cs
  else filenameMatches

/-- `_calculate_relevance_score`: 0.5 per filename match plus 0.2 per content
match, capped count bonuses, clamped to 1. -/
def calculateRelevanceScore (ms : List FVMatch) : ℚ :=
  if ms.isEmpty then 0
  else
    let score := ms.foldl (fun acc m => acc + (if m.mtype = "filename".toList then (0.5 : ℚ) else 0.2)) 0
    let fn := (ms.filter (fun m => m.mtype = "filename".toList)).length
    let ct := (ms.filter (fun m => ¬ (m.mtype = "filename".toList))).length
    let score2 := score + (if fn > 0 then pymin ((fn : ℚ) * 0.1) 0.3 else 0)
    let score3 := score2 + (if ct > 0 then pymin ((ct : ℚ) * 0.05) 0.2 else 0)
    pymin score3 1

/-- The `match_type` label of `_get_file_info`. -/
def matchTypeOf (ms : List FVMatch) : Str :=
  let hasF := ms.any (fun m => m.mtype = "filename".toList)
  let hasC := ms.any (fun m => m.mtype = "content".toList)
  if hasF ∧ hasC then "filename_and_content".toList
  else if hasF then "filename".toList
  else "content".toList

/-- One per-file entry of a file-level search report (`_get_file_info`;
`file_size`/`modified_time` are unmodelled `stat` data). -/
structure FVResult where
  fileName : Str
  filePath : Str
  fileType : Str
  matchType : Str
  relevance : ℚ
  matchList : List FVMatch
deriving DecidableEq

/-- `_get_file_info`. -/
def getFileInfo (path name : Str) (ms : List FVMatch) : FVResult :=
  { fileName := name, filePath := path, fileType := lowerStr (fileSuffix name),
    matchType := matchTypeOf ms, relevance := calculateRelevanceScore ms, matchList := ms }

/-- The request parameters `scan_directory` closes over. -/
structure FVParams where
  keywordList : List Str
  fileTypes : List Str
  maxResults : Nat
  searchContent : Bool
  caseSensitive : Bool

/-- The mutable state of `scan_directory`: the `matching_files` accumulator and
the `total_files_scanned` counter. -/
structure ScanState where
  found : List FVResult
  scanned : Nat
deriving DecidableEq

/-- Visiting one (non-hidden) regular file in `scan_directory`: count it, apply
the type filter, and append its entry when it matches. -/
def stepFile (P : FVParams) (path name : Str) (d : FileData) (s : ScanState) : ScanState :=
  let s1 : ScanState := { found := s.found, scanned := s.scanned + 1 }
  if ¬ P.fileTypes.isEmpty ∧ lowerStr (fileSuffix name) ∉ P.fileTypes then s1
  else
    let fm := checkFileMatches name d P.keywordList P.searchContent P.caseSensitive
    if fm.isEmpty then s1
    else { found := s1.found ++ [getFileInfo (joinPath path name) name fm], scanned := s1.scanned }

/-- `scan_directory`: iterate the listing in order, stopping as soon as the
found-files accumulator has reached the global cap; skip hidden names; count
and test files; recurse into readable subdirectories in place. -/
def scanList (P : FVParams) (path : Str) : List FSEntry → ScanState → ScanState
  | [], s => s
  | FSEntry.file n d :: rest, s =>
    if s.found.length ≥ P.maxResults then s
    else scanList P path rest (if n.head? = some '.' then s else stepFile P path n d s)
  | FSEntry.dir n r ch :: rest, s =>
    if s.found.length ≥ P.maxResults then s
    else
      scanList P path rest
        (if n.head? = some '.' then s
         else if r then scanList P (joinPath path n) ch s else s)

/-- Descending comparison on file relevance used by the final sort. -/
def fvGe (a b : FVResult) : Bool := decide (b.relevance ≤ a.relevance)

/-- A file-level search response. -/
inductive FVResponse where
  | fail (error message : Str)
  | ok (query : Str) (totalFilesScanned : Nat) (matchingFiles : Nat) (results : List FVResult)

/-- `success` field of a file-level search response. -/
def FVResponse.isSuccess : FVResponse → Bool
  | FVResponse.fail _ _ => false
  | FVResponse.ok _ _ _ _ => true

/-- `results` field of a file-level search response (empty on failure). -/
def fvResults : FVResponse → List FVResult
  | FVResponse.fail _ _ => []
  | FVResponse.ok _ _ _ rs => rs

/-- `total_files_scanned` field of a file-level search response (0 on failure). -/
def fvScanned : FVResponse → Nat
  | FVResponse.fail _ _ => 0
  | FVResponse.ok _ n _ _ => n

/-- `search_knowledge_file`: validation, the capped recursive scan, the stable
sort by descending relevance, truncation to the global cap. -/
def searchKnowledgeFile (keywords : Str) (fileTypes : List Str) (maxResults : Nat)
    (searchContent cs : Bool) (root : RootState) : FVResponse :=
  if (stripStr keywords).isEmpty then
    FVResponse.fail "关键词不能为空".toList "请提供有效的搜索关键词".toList
  else if (cleanKeywords keywords).isEmpty then
    FVResponse.fail "无效的关键词".toList "请提供有效的搜索关键词".toList
  else
    match root with
    | RootState.missing =>
      FVResponse.fail "目录不存在".toList "指定的知识库目录不存在".toList
    | RootState.notDir =>
      FVResponse.fail "路径不是目录".toList "指定路径不是目录".toList
    | RootState.present children rootReadable =>
      let P : FVParams :=
        { keywordList := cleanKeywords keywords,
          fileTypes :=
            if fileTypes.isEmpty then []
            else fileTypes.map (fun ft => lowerStr (if ft.head? = some '.' then ft else '.' :: ft)),
          maxResults := maxResults, searchContent := searchContent, caseSensitive := cs }
      let st := if rootReadable then scanList P knowledgeBaseDir children ⟨[], 0⟩ else (⟨[], 0⟩ : ScanState)
      let finalResults := (st.found.mergeSort fvGe).take maxResults
      FVResponse.ok keywords st.scanned finalResults.length finalResults

/-- The number of files `scan_directory` would examine with no cap in the way:
non-hidden files, recursively through non-hidden readable directories (the
claim-side notion of the examined candidate set). -/
def countScannableList : List FSEntry → Nat
  | [] => 0
  | FSEntry.file n _ :: rest =>
    (if n.head? = some '.' then 0 else 1) + countScannableList rest
  | FSEntry.dir n r ch :: rest =>
    (if n.head? = some '.' ∨ ¬ r then 0 else countScannableList ch) + countScannableList rest

/-! ### Supporting lemmas -/

theorem upLow_fst_ne_snd : ∀ p ∈ upLow, p.1 ≠ p.2 := by decide

theorem upLow_snd_not_found : ∀ p ∈ upLow, upLow.find? (fun q => q.1 == p.2) = none := by decide

theorem lowerChar_idem (c : Char) : lowerChar (lowerChar c) = lowerChar c := by
  unfold lowerChar
  cases h : upLow.find? (fun p => p.1 == c) with
  | none => simp [h]
  | some q =>
    have hq : q ∈ upLow := List.mem_of_find?_eq_some h
    simp [upLow_snd_not_found q hq]

theorem lowerChar_ne_of_isUpperA {c : Char} (h : isUpperA c = true) : lowerChar c ≠ c := by
  unfold isUpperA at h
  rcases List.any_eq_true.mp h with ⟨p, hp, hpc⟩
  have hfind : ∃ q, upLow.find? (fun r => r.1 == c) = some q := by
    cases hq : upLow.find? (fun r => r.1 == c) with
    | none =>
      have := List.find?_eq_none.mp hq p hp
      simp_all
    | some q => exact ⟨q, rfl⟩
  rcases hfind with ⟨q, hq⟩
  have hqc : q.1 = c := by simpa using List.find?_some hq
  have hqm : q ∈ upLow := List.mem_of_find?_eq_some hq
  have : lowerChar c = q.2 := by unfold lowerChar; simp [hq]
  rw [this, ← hqc]
  exact fun hcontra => upLow_fst_ne_snd q hqm hcontra.symm

theorem lowerStr_idem (s : Str) : lowerStr (lowerStr s) = lowerStr s := by
  unfold lowerStr
  rw [List.map_map]
  exact List.map_congr_left (fun c _ => lowerChar_idem c)

theorem map_eq_self_mem {f : Char → Char} :
    ∀ {l : List Char}, l.map f = l → ∀ c ∈ l, f c = c := by
  intro l
  induction l with
  | nil => simp
  | cons x xs ih =>
    intro h c hc
    simp only [List.map_cons, List.cons.injEq] at h
    rcases List.mem_cons.mp hc with rfl | hmem
    · exact h.1
    · exact ih h.2 c hmem

theorem lowerStr_ne_of_mem_upper {s : Str} {c : Char} (hc : c ∈ s) (h : isUpperA c = true) :
    lowerStr s ≠ s := by
  intro he
  exact lowerChar_ne_of_isUpperA h (map_eq_self_mem he c hc)

theorem leadsList_take {a b : Str} (h : leadsList a b = true) : b.take a.length = a := by
  induction a generalizing b with
  | nil => simp
  | cons x xs ih =>
    cases b with
    | nil => simp [leadsList] at h
    | cons y ys =>
      simp only [leadsList, Bool.and_eq_true, beq_iff_eq] at h
      simp [h.1.symm, ih h.2]

theorem occFrom_mem {needle : Str} :
    ∀ (fuel : Nat) (s : Str) (i : Nat), s.length < fuel →
      ∀ p, p ∈ occFrom needle fuel s i →
        i ≤ p ∧ leadsList needle (s.drop (p - i)) = true := by
  intro fuel
  induction fuel with
  | zero =>
    intro s i hf p hp
    simp [occFrom] at hp
  | succ f ih =>
    intro s i hf p hp
    cases s with
    | nil =>
      simp only [occFrom] at hp
      split at hp
      · rename_i hl
        simp at hp
        subst hp
        simpa using hl
      · simp at hp
    | cons c rest =>
      simp only [occFrom] at hp
      by_cases hl : leadsList needle (c :: rest) = true
      · rw [if_pos hl] at hp
        by_cases hz : needle.length = 0
        · rw [if_pos hz] at hp
          rcases List.mem_cons.mp hp with h | h
          · subst h
            simpa [Nat.sub_self] using hl
          · have hlen : rest.length < f := by simpa using Nat.lt_of_succ_lt_succ hf
            rcases ih rest (i + 1) hlen p h with ⟨h1, h2⟩
            refine ⟨by omega, ?_⟩
            have : p - i = (p - (i + 1)) + 1 := by omega
            rw [this]
            simpa using h2
        · rw [if_neg hz] at hp
          rcases List.mem_cons.mp hp with h | h
          · subst h
            simpa [Nat.sub_self] using hl
          · have hlen : ((c :: rest).drop needle.length).length < f := by
              simp only [List.length_drop, List.length_cons]
              simp only [List.length_cons] at hf
              omega
            rcases ih _ _ hlen p h with ⟨h1, h2⟩
            refine ⟨by omega, ?_⟩
            have hd : (c :: rest).drop (p - i) =
                ((c :: rest).drop needle.length).drop (p - (i + needle.length)) := by
              rw [List.drop_drop]
              congr 1
              omega
            rw [hd]
            exact h2
      · rw [if_neg hl] at hp
        have hlen : rest.length < f := by simpa using Nat.lt_of_succ_lt_succ hf
        rcases ih rest (i + 1) hlen p hp with ⟨h1, h2⟩
        refine ⟨by omega, ?_⟩
        have : p - i = (p - (i + 1)) + 1 := by omega
        rw [this]
        simpa using h2

theorem occurrences_mem {needle hay : Str} {p : Nat} (hp : p ∈ occurrences needle hay) :
    leadsList needle (hay.drop p) = true := by
  have := occFrom_mem (hay.length + 1) hay 0 (Nat.lt_succ_self _) p hp
  simpa using this.2

theorem occurrences_group {needle hay : Str} {p : Nat} (hp : p ∈ occurrences needle hay) :
    (hay.drop p).take needle.length = needle :=
  leadsList_take (occurrences_mem hp)

theorem range'_map_getD {α : Type} (l : List α) (d : α) :
    ∀ (c s : Nat), s + c ≤ l.length →
      (List.range' s c).map (fun i => l.getD i d) = (l.drop s).take c := by
  intro c
  induction c with
  | zero => simp
  | succ k ih =>
    intro s hs
    have hsl : s < l.length := by omega
    rw [List.range'_succ, List.map_cons, List.getD_eq_getElem l d hsl,
      List.drop_eq_getElem_cons hsl, List.take_succ_cons, ih (s + 1) (by omega)]

theorem mem_enumFrom1 {lines : List Str} {n : Nat} {line : Str}
    (h : (n, line) ∈ List.enumFrom 1 lines) :
    1 ≤ n ∧ n ≤ lines.length ∧ lines.getD (n - 1) [] = line := by
  obtain ⟨h1, h2, h3⟩ := List.mem_enumFrom h
  refine ⟨h1, by omega, ?_⟩
  have hlt : n - 1 < lines.length := by omega
  rw [List.getD_eq_getElem lines [] hlt]
  exact h3.symm

theorem mem_collectMatches {lines kws : List Str} {ctx : Nat} {cs : Bool}
    {m : ContentMatch} (hm : m ∈ collectMatches lines kws ctx cs) :
    ∃ n line kw p, 1 ≤ n ∧ n ≤ lines.length ∧ lines.getD (n - 1) [] = line ∧ kw ∈ kws ∧
      p ∈ occurrences (if cs then kw else lowerStr kw) (if cs then line else lowerStr line) ∧
      m = buildMatch lines ctx cs n line kw p := by
  unfold collectMatches at hm
  rcases List.mem_flatMap.mp hm with ⟨nl, hnl, hm2⟩
  obtain ⟨n, line⟩ := nl
  rcases List.mem_flatMap.mp hm2 with ⟨kw, hkw, hm3⟩
  rcases List.mem_map.mp hm3 with ⟨p, hp, hbuild⟩
  obtain ⟨h1, h2, h3⟩ := mem_enumFrom1 hnl
  exact ⟨n, line, kw, p, h1, h2, h3, hkw, hp, hbuild.symm⟩

theorem mem_deepExtract {ext : Str} {d : FileData} {kws : List Str} {ctx : Nat}
    {cs : Bool} {mx : Nat} {m : ContentMatch}
    (hm : m ∈ deepExtractContent ext d kws ctx cs mx) :
    ∃ lines, extractLines ext d = some lines ∧ m ∈ collectMatches lines kws ctx cs := by
  unfold deepExtractContent at hm
  split at hm
  · simp at hm
  · rename_i lines he
    by_cases hle : lines.isEmpty = true
    · rw [if_pos hle] at hm
      simp at hm
    · rw [if_neg hle] at hm
      exact ⟨lines, he, List.mem_mergeSort.mp (List.take_subset _ _ hm)⟩

theorem pairwise_take_mergeSort_scoreGe (l : List ContentMatch) (mx : Nat) :
    List.Pairwise (fun a b => b.relevance.score ≤ a.relevance.score)
      ((l.mergeSort scoreGe).take mx) := by
  have htrans : ∀ a b c : ContentMatch, scoreGe a b = true → scoreGe b c = true →
      scoreGe a c = true := by
    intro a b c hab hbc
    simp only [scoreGe, decide_eq_true_eq] at *
    exact le_trans hbc hab
  have htotal : ∀ a b : ContentMatch, (scoreGe a b || scoreGe b a) = true := by
    intro a b
    simp only [scoreGe, Bool.or_eq_true, decide_eq_true_eq]
    exact le_total _ _
  have hs := List.sorted_mergeSort htrans htotal l
  have hs2 : List.Pairwise (fun a b : ContentMatch => b.relevance.score ≤ a.relevance.score)
      (l.mergeSort scoreGe) :=
    hs.imp (fun h => by simpa [scoreGe] using h)
  exact hs2.sublist (List.take_sublist _ _)

theorem findFilesList_eq_filter (pats : List Str) :
    ∀ (path : Str) (es : List FSEntry),
      findFilesList pats path es =
        (reachableList path es).filter
          (fun f => pats.any (fun p => patternMatches p f.name)) := by
  intro path es
  induction path, es using reachableList.induct with
  | case1 path => simp [findFilesList, reachableList]
  | case2 path n d rest ih =>
    simp only [findFilesList, reachableList, List.filter_cons]
    cases h : pats.any (fun p => patternMatches p n) with
    | true => simp [h, ih]
    | false => simp [h, ih]
  | case3 path n r ch rest ih1 ih2 =>
    simp only [findFilesList, reachableList, List.filter_append]
    cases r with
    | true => simp [ih1, ih2]
    | false => simp [ih2]

theorem pymin_le_left (a b : ℚ) : pymin a b ≤ a := by
  unfold pymin
  split
  · exact le_refl a
  · linarith [lt_of_not_le (by assumption : ¬ a ≤ b)]

theorem pymin_le_right (a b : ℚ) : pymin a b ≤ b := by
  unfold pymin
  split
  · assumption
  · exact le_refl b

theorem le_pymin {a b c : ℚ} (h1 : c ≤ a) (h2 : c ≤ b) : c ≤ pymin a b := by
  unfold pymin
  split
  · exact h1
  · exact h2

/-- The line of the extracted file content a match points at (1-based
`lineNumber`), read back from the match's provenance. -/
def matchLine (ext : Str) (d : FileData) (m : ContentMatch) : Str :=
  ((extractLines ext d).getD []).getD (m.lineNumber - 1) []

theorem pymin_nonneg {a b : ℚ} (ha : 0 ≤ a) (hb : 0 ≤ b) : 0 ≤ pymin a b :=
  le_pymin ha hb

theorem posBonusNonneg (pos len : Nat) :
    (0 : ℚ) ≤ (if pos = 0 then (0.2 : ℚ)
      else if (pos : ℚ) < (len : ℚ) * 0.3 then 0.1
      else if (pos : ℚ) > (len : ℚ) * 0.7 then 0.05
      else 0) := by
  split
  · norm_num
  · split
    · norm_num
    · split
      · norm_num
      · norm_num

theorem densBonusNonneg (k : Nat) :
    (0 : ℚ) ≤ (if 1 < k then pymin (((k : ℚ) - 1) * 0.05) 0.15 else 0) := by
  split
  · rename_i hgt
    apply pymin_nonneg _ (by norm_num)
    have h1 : (1 : ℚ) ≤ (k : ℚ) := by exact_mod_cast Nat.one_le_iff_ne_zero.mpr (by omega)
    nlinarith
  · exact le_refl 0

theorem score_formula_bounds {pB cB lB dB score : ℚ}
    (e5 : score = pymin (0.4 + pB + cB + lB + dB) 1)
    (h1 : 0 ≤ pB) (h2 : 0 ≤ cB) (h3 : 0 ≤ lB) (h4 : 0 ≤ dB) :
    0 ≤ score ∧ score ≤ 1 := by
  constructor
  · rw [e5]
    exact le_pymin (by linarith) (by norm_num)
  · rw [e5]
    exact pymin_le_right _ _

/-- Claim C1: for every content match, the relevance score equals base 0.4 plus
the position bonus (0.2 at column 0; 0.1 when the start offset is under 30% of
the line length; 0.05 when over 70%; else 0), plus 0.05 per actually-returned
context line capped at 0.2, plus 0.001 per character of line length capped at
0.1, plus 0.05 per keyword occurrence beyond the first capped at 0.15 (zero for
a single occurrence), clamped to 1.0; hence every returned score is in [0,1]. -/
theorem claimC1 (ext : Str) (d : FileData) (kws : List Str) (ctx : Nat) (cs : Bool)
    (mx : Nat) (m : ContentMatch) (hm : m ∈ deepExtractContent ext d kws ctx cs mx) :
    m.relevance.positionBonus =
      (if m.metadata.matchStart = 0 then (0.2 : ℚ)
       else if (m.metadata.matchStart : ℚ) < ((matchLine ext d m).length : ℚ) * 0.3 then 0.1
       else if (m.metadata.matchStart : ℚ) > ((matchLine ext d m).length : ℚ) * 0.7 then 0.05
       else 0) ∧
    m.relevance.contextBonus =
      pymin (((m.context.before.length + m.context.after.length : Nat) : ℚ) * 0.05) 0.2 ∧
    m.relevance.lengthBonus = pymin (((matchLine ext d m).length : ℚ) * 0.001) 0.1 ∧
    m.relevance.densityBonus =
      (if 1 < countOcc (lowerStr m.keyword) (lowerStr (matchLine ext d m)) then
        pymin (((countOcc (lowerStr m.keyword) (lowerStr (matchLine ext d m)) : ℚ) - 1) * 0.05) 0.15
       else 0) ∧
    m.relevance.score = pymin (0.4 + m.relevance.positionBonus + m.relevance.contextBonus
      + m.relevance.lengthBonus + m.relevance.densityBonus) 1 ∧
    0 ≤ m.relevance.score ∧ m.relevance.score ≤ 1 := by
  obtain ⟨lines, he, hc⟩ := mem_deepExtract hm
  obtain ⟨n, line, kw, p, h1, h2, h3, hkw, hp, hb⟩ := mem_collectMatches hc
  have hline : matchLine ext d m = line := by
    unfold matchLine
    rw [he, hb]
    simpa [buildMatch] using h3
  subst hb
  have e1 : (buildMatch lines ctx cs n line kw p).relevance.positionBonus =
      (if (buildMatch lines ctx cs n line kw p).metadata.matchStart = 0 then (0.2 : ℚ)
       else if ((buildMatch lines ctx cs n line kw p).metadata.matchStart : ℚ) <
           ((matchLine ext d (buildMatch lines ctx cs n line kw p)).length : ℚ) * 0.3 then 0.1
       else if ((buildMatch lines ctx cs n line kw p).metadata.matchStart : ℚ) >
           ((matchLine ext d (buildMatch lines ctx cs n line kw p)).length : ℚ) * 0.7 then 0.05
       else 0) := by
    rw [hline]
    rfl
  have e2 : (buildMatch lines ctx cs n line kw p).relevance.contextBonus =
      pymin ((((buildMatch lines ctx cs n line kw p).context.before.length +
        (buildMatch lines ctx cs n line kw p).context.after.length : Nat) : ℚ) * 0.05) 0.2 := rfl
  have e3 : (buildMatch lines ctx cs n line kw p).relevance.lengthBonus =
      pymin (((matchLine ext d (buildMatch lines ctx cs n line kw p)).length : ℚ) * 0.001) 0.1 := by
    rw [hline]
    rfl
  have e4 : (buildMatch lines ctx cs n line kw p).relevance.densityBonus =
      (if 1 < countOcc (lowerStr (buildMatch lines ctx cs n line kw p).keyword)
          (lowerStr (matchLine ext d (buildMatch lines ctx cs n line kw p))) then
        pymin (((countOcc (lowerStr (buildMatch lines ctx cs n line kw p).keyword)
          (lowerStr (matchLine ext d (buildMatch lines ctx cs n line kw p))) : ℚ) - 1) * 0.05) 0.15
       else 0) := by
    rw [hline]
    rfl
  have e5 : (buildMatch lines ctx cs n line kw p).relevance.score =
      pymin (0.4 + (buildMatch lines ctx cs n line kw p).relevance.positionBonus
        + (buildMatch lines ctx cs n line kw p).relevance.contextBonus
        + (buildMatch lines ctx cs n line kw p).relevance.lengthBonus
        + (buildMatch lines ctx cs n line kw p).relevance.densityBonus) 1 := rfl
  have hb1 : 0 ≤ (buildMatch lines ctx cs n line kw p).relevance.positionBonus := by
    rw [e1]
    exact posBonusNonneg _ _
  have hb2 : 0 ≤ (buildMatch lines ctx cs n line kw p).relevance.contextBonus := by
    rw [e2]
    exact pymin_nonneg (by positivity) (by norm_num)
  have hb3 : 0 ≤ (buildMatch lines ctx cs n line kw p).relevance.lengthBonus := by
    rw [e3]
    exact pymin_nonneg (by positivity) (by norm_num)
  have hb4 : 0 ≤ (buildMatch lines ctx cs n line kw p).relevance.densityBonus := by
    rw [e4]
    exact densBonusNonneg _
  obtain ⟨hs0, hs1⟩ := score_formula_bounds e5 hb1 hb2 hb3 hb4
  exact ⟨e1, e2, e3, e4, e5, hs0, hs1⟩

/-- The single match produced by deep-extracting the one-line file `Kx` with
keyword `K`, case-insensitively. -/
def wM : ContentMatch := buildMatch ["Kx".toList] 3 false 1 "Kx".toList "K".toList 0

theorem deepEvalA :
    deepExtractContent ".txt".toList (FileData.text ["Kx".toList]) ["K".toList] 3 false 10
      = [wM] := by
  have h1 : deepExtractContent ".txt".toList (FileData.text ["Kx".toList]) ["K".toList] 3 false 10
      = ((collectMatches ["Kx".toList] ["K".toList] 3 false).mergeSort scoreGe).take 10 := rfl
  have h2 : collectMatches ["Kx".toList] ["K".toList] 3 false = [wM] := rfl
  rw [h1, h2, List.mergeSort_singleton]
  rfl

theorem wM_mem :
    wM ∈ deepExtractContent ".txt".toList (FileData.text ["Kx".toList]) ["K".toList] 3 false 10 := by
  rw [deepEvalA]
  exact List.mem_singleton.mpr rfl

/-- Witness for C1 at a concrete one-line file. -/
theorem claimC1_witness :
    wM ∈ deepExtractContent ".txt".toList (FileData.text ["Kx".toList]) ["K".toList] 3 false 10 ∧
    0 ≤ wM.relevance.score ∧ wM.relevance.score ≤ 1 := by
  obtain ⟨-, -, -, -, -, h6, h7⟩ :=
    claimC1 ".txt".toList (FileData.text ["Kx".toList]) ["K".toList] 3 false 10 wM wM_mem
  exact ⟨wM_mem, h6, h7⟩

/-- Claim C4: for every match with 1-based line number n over L extracted lines
and window size k, the context holds at most k lines strictly before and at
most k after, both windows are exact slices of the file (indices clamped into
1..L, no padding), and the matched line is returned right-stripped. -/
theorem claimC4 (ext : Str) (d : FileData) (kws : List Str) (k : Nat) (cs : Bool)
    (mx : Nat) (m : ContentMatch) (hm : m ∈ deepExtractContent ext d kws k cs mx) :
    m.context.before.length ≤ k ∧ m.context.after.length ≤ k ∧
    1 ≤ m.lineNumber ∧ m.lineNumber ≤ ((extractLines ext d).getD []).length ∧
    m.context.before =
      ((((extractLines ext d).getD []).drop (m.lineNumber - 1 - k)).take
        (min (m.lineNumber - 1) k)).map rstrip ∧
    m.context.after =
      ((((extractLines ext d).getD []).drop m.lineNumber).take
        (min (((extractLines ext d).getD []).length - m.lineNumber) k)).map rstrip ∧
    m.context.matchedLine = rstrip (matchLine ext d m) := by
  obtain ⟨lines, he, hc⟩ := mem_deepExtract hm
  obtain ⟨n, line, kw, p, h1, h2, h3, hkw, hp, hb⟩ := mem_collectMatches hc
  have hlines : (extractLines ext d).getD [] = lines := by rw [he]; rfl
  have hline : matchLine ext d m = line := by
    unfold matchLine
    rw [he, hb]
    simpa [buildMatch] using h3
  subst hb
  have hn : (buildMatch lines k cs n line kw p).lineNumber = n := rfl
  have hbefore : (buildMatch lines k cs n line kw p).context.before =
      (List.range' (n - k - 1) (n - 1 - (n - k - 1))).map (fun i => rstrip (lines.getD i [])) := rfl
  have hafter : (buildMatch lines k cs n line kw p).context.after =
      (List.range' n (min lines.length (n + k) - n)).map (fun i => rstrip (lines.getD i [])) := rfl
  have hbs : (n - k - 1) + (n - 1 - (n - k - 1)) ≤ lines.length := by omega
  have has : n + (min lines.length (n + k) - n) ≤ lines.length := by omega
  have hmapc : (fun i => rstrip (lines.getD i [])) = rstrip ∘ (fun i => lines.getD i []) := rfl
  have hbeq : (buildMatch lines k cs n line kw p).context.before =
      ((lines.drop (n - k - 1)).take (min (n - 1) k)).map rstrip := by
    rw [hbefore, hmapc, ← List.map_map, range'_map_getD lines [] _ _ hbs]
    congr 2
    omega
  have haeq : (buildMatch lines k cs n line kw p).context.after =
      ((lines.drop n).take (min (lines.length - n) k)).map rstrip := by
    rw [hafter, hmapc, ← List.map_map, range'_map_getD lines [] _ _ has]
    congr 2
    omega
  refine ⟨?_, ?_, h1, ?_, ?_, ?_, ?_⟩
  · rw [hbefore]
    simp only [List.length_map, List.length_range']
    omega
  · rw [hafter]
    simp only [List.length_map, List.length_range']
    omega
  · rw [hlines, hn]
    exact h2
  · have hsub : n - 1 - k = n - k - 1 := by omega
    rw [hlines, hn, hsub]
    exact hbeq
  · rw [hlines, hn]
    exact haeq
  · rw [hline]
    rfl

/-- Witness for C4 at a concrete one-line file. -/
theorem claimC4_witness :
    wM ∈ deepExtractContent ".txt".toList (FileData.text ["Kx".toList]) ["K".toList] 3 false 10 ∧
    wM.context.before.length ≤ 3 ∧ wM.context.after.length ≤ 3 ∧
    1 ≤ wM.lineNumber ∧
    wM.lineNumber ≤ ((extractLines ".txt".toList (FileData.text ["Kx".toList])).getD []).length ∧
    wM.context.matchedLine = rstrip (matchLine ".txt".toList (FileData.text ["Kx".toList]) wM) := by
  obtain ⟨hb, ha, h1, h2, -, -, hml⟩ :=
    claimC4 ".txt".toList (FileData.text ["Kx".toList]) ["K".toList] 3 false 10 wM wM_mem
  exact ⟨wM_mem, hb, ha, h1, h2, hml⟩

/-- Claim C10: in a case-insensitive content search the matcher runs over the
lowercased line, so `exact_match` is the lowercased keyword (hence itself
entirely lowercase, possibly differing in case from the file's text), and a
keyword containing an uppercase letter is never labelled `whole_word`. -/
theorem claimC10 (ext : Str) (d : FileData) (kws : List Str) (k mx : Nat)
    (m : ContentMatch) (hm : m ∈ deepExtractContent ext d kws k false mx) :
    m.exactMatch = lowerStr m.keyword ∧
    lowerStr m.exactMatch = m.exactMatch ∧
    ((∃ c ∈ m.keyword, isUpperA c = true) → m.metadata.matchType = "partial".toList) := by
  obtain ⟨lines, he, hc⟩ := mem_deepExtract hm
  obtain ⟨n, line, kw, p, h1, h2, h3, hkw, hp, hb⟩ := mem_collectMatches hc
  subst hb
  have hpocc : p ∈ occurrences (lowerStr kw) (lowerStr line) := by simpa using hp
  have hgrp : (buildMatch lines k false n line kw p).exactMatch = lowerStr kw := by
    show ((lowerStr line).drop p).take (lowerStr kw).length = lowerStr kw
    exact occurrences_group hpocc
  refine ⟨hgrp, ?_, ?_⟩
  · rw [hgrp]
    exact lowerStr_idem kw
  · rintro ⟨c, hcmem, hcup⟩
    have hne : lowerStr kw ≠ kw := lowerStr_ne_of_mem_upper hcmem hcup
    have hmt : (buildMatch lines k false n line kw p).metadata.matchType =
        (if ((lowerStr line).drop p).take (lowerStr kw).length = kw then
          "whole_word".toList else "partial".toList) := rfl
    rw [hmt, occurrences_group hpocc, if_neg hne]

/-- Witness for C10: keyword `K` on the line `Kx`, case-insensitively. -/
theorem claimC10_witness :
    wM ∈ deepExtractContent ".txt".toList (FileData.text ["Kx".toList]) ["K".toList] 3 false 10 ∧
    wM.exactMatch = lowerStr wM.keyword ∧ lowerStr wM.exactMatch = wM.exactMatch ∧
    wM.metadata.matchType = "partial".toList := by
  obtain ⟨e1, e2, himp⟩ :=
    claimC10 ".txt".toList (FileData.text ["Kx".toList]) ["K".toList] 3 10 wM wM_mem
  exact ⟨wM_mem, e1, e2, himp ⟨'K', by decide, by decide⟩⟩

theorem deepExtract_length_le (ext : Str) (d : FileData) (kws : List Str) (k : Nat)
    (cs : Bool) (mx : Nat) : (deepExtractContent ext d kws k cs mx).length ≤ mx := by
  unfold deepExtractContent
  split
  · simp
  · split
    · simp
    · simp

theorem deepExtract_sorted (ext : Str) (d : FileData) (kws : List Str) (k : Nat)
    (cs : Bool) (mx : Nat) :
    List.Pairwise (fun a b => b.relevance.score ≤ a.relevance.score)
      (deepExtractContent ext d kws k cs mx) := by
  unfold deepExtractContent
  split
  · simp
  · split
    · simp
    · exact pairwise_take_mergeSort_scoreGe _ _

theorem mem_contentResults {fns : List Str} {kws : Str} {k : Nat} {cs : Bool} {mx : Nat}
    {root : RootState} {r : ContentFileResult}
    (hr : r ∈ contentResults (searchKnowledgeContent fns kws k cs mx root)) :
    ∃ f ∈ contentCandidates fns root,
      processCandidate (cleanKeywords kws) k cs mx f = some r := by
  unfold searchKnowledgeContent at hr
  split at hr
  · simp [contentResults] at hr
  · split at hr
    · simp [contentResults] at hr
    · split at hr
      · simp [contentResults] at hr
      · split at hr
        · simp [contentResults] at hr
        · simp [contentResults] at hr
        · simp only [contentResults] at hr
          exact List.mem_filterMap.mp hr

/-- Claim C7: every per-file entry of a content-search result carries a match
list sorted by descending relevance score, truncated to at most
`max_results_per_file` entries. -/
theorem claimC7 (fns : List Str) (kws : Str) (k : Nat) (cs : Bool) (mx : Nat)
    (root : RootState) (r : ContentFileResult)
    (hr : r ∈ contentResults (searchKnowledgeContent fns kws k cs mx root)) :
    r.contentMatches.length ≤ mx ∧
    List.Pairwise (fun a b => b.relevance.score ≤ a.relevance.score) r.contentMatches := by
  obtain ⟨f, hf, hpf⟩ := mem_contentResults hr
  simp only [processCandidate] at hpf
  by_cases hfm : (deepExtractContent (lowerStr (fileSuffix f.name)) f.data
      (cleanKeywords kws) k cs mx).isEmpty = true
  · rw [if_pos hfm] at hpf
    simp at hpf
  · rw [if_neg hfm] at hpf
    obtain rfl := Option.some.inj hpf
    exact ⟨deepExtract_length_le _ _ _ _ _ _, deepExtract_sorted _ _ _ _ _ _⟩

/-- A concrete root directory holding one file `a.txt` with content line `Kx`. -/
def rootA : RootState :=
  RootState.present [FSEntry.file "a.txt".toList (FileData.text ["Kx".toList])] true

/-- The candidate the walk locates in `rootA` for pattern `txt`. -/
def candA : CandFile :=
  ⟨joinPath knowledgeBaseDir "a.txt".toList, "a.txt".toList, FileData.text ["Kx".toList]⟩

theorem candEvalA : contentCandidates ["txt".toList] rootA = [candA] := by
  show findFilesList (cleanNames ["txt".toList]) knowledgeBaseDir
      [FSEntry.file "a.txt".toList (FileData.text ["Kx".toList])] = [candA]
  rw [show cleanNames ["txt".toList] = ["txt".toList] from rfl]
  rw [findFilesList, if_pos (by decide), findFilesList]
  rfl

/-- The per-file entry the content search builds for `candA`. -/
def rA : ContentFileResult :=
  { fileInfo :=
      { name := "a.txt".toList,
        path := joinPath knowledgeBaseDir "a.txt".toList,
        fileType := ".txt".toList },
    contentMatches := [wM],
    summary :=
      { totalMatches := 1,
        uniqueKeywords := ["K".toList],
        avgRelevanceScore :=
          round3 (([wM].map (fun m => m.relevance.score)).sum / ([wM].length : ℚ)) } }

theorem procEvalA : processCandidate ["K".toList] 3 false 10 candA = some rA := by
  have hd : deepExtractContent (lowerStr (fileSuffix candA.name)) candA.data
      ["K".toList] 3 false 10 = [wM] := by
    rw [show lowerStr (fileSuffix candA.name) = ".txt".toList from by decide,
      show candA.data = FileData.text ["Kx".toList] from rfl]
    exact deepEvalA
  simp only [processCandidate]
  rw [hd, if_neg (by decide)]
  rfl

theorem contentResultsEvalA :
    contentResults (searchKnowledgeContent ["txt".toList] "K".toList 3 false 10 rootA)
      = [rA] := by
  have h0 : contentResults (searchKnowledgeContent ["txt".toList] "K".toList 3 false 10 rootA)
      = (contentCandidates ["txt".toList] rootA).filterMap
          (processCandidate (cleanKeywords "K".toList) 3 false 10) := rfl
  rw [h0, show cleanKeywords "K".toList = ["K".toList] from rfl, candEvalA]
  simp only [List.filterMap_cons, List.filterMap_nil, procEvalA]

/-- Witness for C7 at a concrete one-file search. -/
theorem claimC7_witness :
    rA ∈ contentResults (searchKnowledgeContent ["txt".toList] "K".toList 3 false 10 rootA) ∧
    rA.contentMatches.length ≤ 10 ∧
    List.Pairwise (fun a b => b.relevance.score ≤ a.relevance.score) rA.contentMatches := by
  have hmem : rA ∈ contentResults
      (searchKnowledgeContent ["txt".toList] "K".toList 3 false 10 rootA) := by
    rw [contentResultsEvalA]
    exact List.mem_singleton.mpr rfl
  obtain ⟨h1, h2⟩ := claimC7 ["txt".toList] "K".toList 3 false 10 rootA rA hmem
  exact ⟨hmem, h1, h2⟩

/-- Counterexample to C3 as stated: for a plain-text candidate the extraction
used for matching keeps whitespace-only lines. -/
theorem claimC3_cex :
    " ".toList ∈ (extractLines ".txt".toList
      (FileData.text ["a".toList, " ".toList])).getD [] ∧
    (stripStr " ".toList).isEmpty = true := by
  decide

/-- Claim C3 (amended): only PDF extraction filters blank/whitespace-only lines
(and yields the empty sequence when no backend succeeds); plain-text extraction
returns the file's lines exactly as read, blank lines included, and an
unreadable file yields an empty match list rather than an exception. -/
theorem claimC3_amended :
    (∀ (d : FileData) (l : Str), l ∈ pdfExtract d → ¬ (stripStr l).isEmpty = true) ∧
    (∀ (ext : Str) (ls : List Str), ext ≠ ".pdf".toList →
      extractLines ext (FileData.text ls) = some ls) ∧
    (∀ (ext : Str) (kws : List Str) (k : Nat) (cs : Bool) (mx : Nat),
      ext ≠ ".pdf".toList →
      deepExtractContent ext FileData.unreadable kws k cs mx = []) ∧
    (∀ (raw : List Str) (kws : List Str) (k : Nat) (cs : Bool) (mx : Nat),
      deepExtractContent ".pdf".toList (FileData.pdf raw none) kws k cs mx = []) := by
  refine ⟨?_, ?_, ?_, ?_⟩
  · intro d l hl
    cases d with
    | text ls => simp [pdfExtract] at hl
    | unreadable => simp [pdfExtract] at hl
    | pdf raw extracted =>
      cases extracted with
      | none => simp [pdfExtract] at hl
      | some t =>
        simp only [pdfExtract] at hl
        exact of_decide_eq_true (List.mem_filter.mp hl).2
  · intro ext ls hne
    unfold extractLines
    rw [if_neg (by simpa using hne)]
  · intro ext kws k cs mx hne
    unfold deepExtractContent extractLines
    rw [if_neg (by simpa using hne)]
  · intro raw kws k cs mx
    unfold deepExtractContent extractLines
    rw [if_pos rfl]
    simp [pdfExtract]

/-- Witness for the amended C3 at concrete files. -/
theorem claimC3_witness :
    extractLines ".txt".toList (FileData.text ["a".toList]) = some ["a".toList] ∧
    deepExtractContent ".txt".toList FileData.unreadable ["k".toList] 1 false 5 = [] ∧
    deepExtractContent ".pdf".toList (FileData.pdf [] none) ["k".toList] 1 false 5 = [] ∧
    ¬ (stripStr "b".toList).isEmpty = true := by
  refine ⟨claimC3_amended.2.1 ".txt".toList ["a".toList] (by decide),
    claimC3_amended.2.2.1 ".txt".toList ["k".toList] 1 false 5 (by decide),
    claimC3_amended.2.2.2 [] ["k".toList] 1 false 5,
    claimC3_amended.1 (FileData.pdf [] (some "b".toList)) "b".toList (by decide)⟩

/-- Claim C9 (amended): a file is a content-search candidate iff it is reachable
by the walk and its name matches at least one pattern, where a pattern without
`*` matches by case-insensitive substring containment and a pattern containing
`*` is translated (each `*` to `.*`) into a START-anchored regular expression
that must match a prefix of the file name — not necessarily the whole name. -/
theorem claimC9_amended (pats : List Str) (path : Str) (es : List FSEntry) (f : CandFile) :
    f ∈ findFilesList pats path es ↔
      f ∈ reachableList path es ∧ pats.any (fun p => patternMatches p f.name) = true := by
  rw [findFilesList_eq_filter]
  exact List.mem_filter

/-- Counterexample to C9 as stated: with pattern `a*b`, the file named `abc` is
collected as a candidate (the regex `a.*b` matches the prefix `ab`) although the
whole name `abc` does not match the anchored regex, contradicting the claimed
whole-name semantics. -/
theorem claimC9_cex :
    (findFilesList ["a*b".toList] knowledgeBaseDir
      [FSEntry.file "abc".toList (FileData.text [])]).map (fun f => f.name)
        = ["abc".toList] ∧
    patternMatchesWhole "a*b".toList "abc".toList = false := by
  constructor
  · rw [findFilesList, if_pos (by decide), findFilesList]
    rfl
  · decide

theorem scanList_stop (P : FVParams) (path : Str) (es : List FSEntry) (s : ScanState)
    (h : s.found.length ≥ P.maxResults) : scanList P path es s = s := by
  cases es with
  | nil => rw [scanList]
  | cons e rest =>
    cases e with
    | file n d => rw [scanList, if_pos h]
    | dir n r ch => rw [scanList, if_pos h]

/-- Claim C6 (amended): the FILE-LEVEL search skips every entry whose name
begins with `.` — a hidden file is neither counted nor matched and a hidden
directory is never descended into; the CONTENT-LEVEL walk performs no such
filtering (see the counterexample), so the hidden-skip holds only for the
file-level variant. -/
theorem claimC6_amended :
    (∀ (P : FVParams) (path name : Str) (d : FileData) (rest : List FSEntry) (s : ScanState),
      name.head? = some '.' →
      scanList P path (FSEntry.file name d :: rest) s = scanList P path rest s) ∧
    (∀ (P : FVParams) (path name : Str) (r : Bool) (ch rest : List FSEntry) (s : ScanState),
      name.head? = some '.' →
      scanList P path (FSEntry.dir name r ch :: rest) s = scanList P path rest s) := by
  constructor
  · intro P path name d rest s hname
    by_cases hcap : s.found.length ≥ P.maxResults
    · have h1 : scanList P path (FSEntry.file name d :: rest) s = s := by
        rw [scanList, if_pos hcap]
      rw [h1, scanList_stop P path rest s hcap]
    · have h1 : scanList P path (FSEntry.file name d :: rest) s =
          scanList P path rest (if name.head? = some '.' then s else stepFile P path name d s) := by
        rw [scanList, if_neg hcap]
      rw [h1, if_pos hname]
  · intro P path name r ch rest s hname
    by_cases hcap : s.found.length ≥ P.maxResults
    · have h1 : scanList P path (FSEntry.dir name r ch :: rest) s = s := by
        rw [scanList, if_pos hcap]
      rw [h1, scanList_stop P path rest s hcap]
    · have h1 : scanList P path (FSEntry.dir name r ch :: rest) s =
          scanList P path rest
            (if name.head? = some '.' then s
             else if r then scanList P (joinPath path name) ch s else s) := by
        rw [scanList, if_neg hcap]
      rw [h1, if_pos hname]

/-- A concrete root whose only entry is a hidden file containing a match. -/
def rootH : RootState :=
  RootState.present [FSEntry.file ".hidden.txt".toList (FileData.text ["k".toList])] true

/-- The hidden candidate the content walk produces from `rootH`. -/
def candH : CandFile :=
  ⟨joinPath knowledgeBaseDir ".hidden.txt".toList, ".hidden.txt".toList,
    FileData.text ["k".toList]⟩

theorem candEvalH : contentCandidates ["hidden".toList] rootH = [candH] := by
  show findFilesList (cleanNames ["hidden".toList]) knowledgeBaseDir
      [FSEntry.file ".hidden.txt".toList (FileData.text ["k".toList])] = [candH]
  rw [show cleanNames ["hidden".toList] = ["hidden".toList] from rfl]
  rw [findFilesList, if_pos (by decide), findFilesList]
  rfl

/-- The match found inside the hidden file. -/
def mH : ContentMatch := buildMatch ["k".toList] 0 false 1 "k".toList "k".toList 0

theorem deepEvalH :
    deepExtractContent ".txt".toList (FileData.text ["k".toList]) ["k".toList] 0 false 10
      = [mH] := by
  have h1 : deepExtractContent ".txt".toList (FileData.text ["k".toList]) ["k".toList] 0 false 10
      = ((collectMatches ["k".toList] ["k".toList] 0 false).mergeSort scoreGe).take 10 := rfl
  have h2 : collectMatches ["k".toList] ["k".toList] 0 false = [mH] := rfl
  rw [h1, h2, List.mergeSort_singleton]
  rfl

/-- The per-file entry built for the hidden file. -/
def rH : ContentFileResult :=
  { fileInfo :=
      { name := ".hidden.txt".toList,
        path := joinPath knowledgeBaseDir ".hidden.txt".toList,
        fileType := ".txt".toList },
    contentMatches := [mH],
    summary :=
      { totalMatches := 1,
        uniqueKeywords := ["k".toList],
        avgRelevanceScore :=
          round3 (([mH].map (fun m => m.relevance.score)).sum / ([mH].length : ℚ)) } }

theorem procEvalH : processCandidate ["k".toList] 0 false 10 candH = some rH := by
  have hd : deepExtractContent (lowerStr (fileSuffix candH.name)) candH.data
      ["k".toList] 0 false 10 = [mH] := by
    rw [show lowerStr (fileSuffix candH.name) = ".txt".toList from by decide,
      show candH.data = FileData.text ["k".toList] from rfl]
    exact deepEvalH
  simp only [processCandidate]
  rw [hd, if_neg (by decide)]
  rfl

/-- Counterexample to C6 as stated: in the content-level search a hidden file is
scanned, counted in the statistics, and returned as a match. -/
theorem claimC6_cex :
    (contentStats (searchKnowledgeContent ["hidden".toList] "k".toList 0 false 10
      rootH)).totalFilesScanned = 1 ∧
    (contentResults (searchKnowledgeContent ["hidden".toList] "k".toList 0 false 10
      rootH)).map (fun r => r.fileInfo.name) = [".hidden.txt".toList] := by
  constructor
  · have h0 : (contentStats (searchKnowledgeContent ["hidden".toList] "k".toList 0 false 10
        rootH)).totalFilesScanned = (contentCandidates ["hidden".toList] rootH).length := rfl
    rw [h0, candEvalH]
    rfl
  · have h0 : contentResults (searchKnowledgeContent ["hidden".toList] "k".toList 0 false 10
        rootH) = (contentCandidates ["hidden".toList] rootH).filterMap
          (processCandidate (cleanKeywords "k".toList) 0 false 10) := rfl
    rw [h0, show cleanKeywords "k".toList = ["k".toList] from rfl, candEvalH]
    simp only [List.filterMap_cons, List.filterMap_nil, procEvalH]
    rfl

/-- Witness for the amended C6 at concrete hidden entries. -/
theorem claimC6_witness :
    scanList ⟨["k".toList], [], 20, true, false⟩ knowledgeBaseDir
      [FSEntry.file ".h".toList FileData.unreadable] ⟨[], 0⟩ =
      scanList ⟨["k".toList], [], 20, true, false⟩ knowledgeBaseDir [] ⟨[], 0⟩ ∧
    scanList ⟨["k".toList], [], 20, true, false⟩ knowledgeBaseDir
      [FSEntry.dir ".d".toList true [FSEntry.file "x.txt".toList FileData.unreadable]] ⟨[], 0⟩ =
      scanList ⟨["k".toList], [], 20, true, false⟩ knowledgeBaseDir [] ⟨[], 0⟩ := by
  exact ⟨claimC6_amended.1 _ _ _ _ _ _ (by decide),
    claimC6_amended.2 _ _ _ _ _ _ _ (by decide)⟩

/-- The hard-coded root exists and is a directory. -/
def isDirB : RootState → Bool
  | RootState.present _ _ => true
  | _ => false

/-- Claim C8: a request with an all-blank (or empty) file-name list, a blank
keyword string, or a missing / non-directory root yields `success:false` (and
independently of the filesystem state, so no scanning happens); every other
request — whatever unreadable directories, undecodable or unreadable files the
tree holds — yields `success:true`: per-file failures never abort the request. -/
theorem claimC8 :
    (∀ (fns : List Str) (kws : Str) (k : Nat) (cs : Bool) (mx : Nat) (root : RootState),
      (searchKnowledgeContent fns kws k cs mx root).isSuccess =
        (fns.any (fun fn => !(stripStr fn).isEmpty) && !(stripStr kws).isEmpty &&
         !(cleanKeywords kws).isEmpty && isDirB root)) ∧
    (∀ (fns : List Str) (kws : Str) (k : Nat) (cs : Bool) (mx : Nat)
        (root₁ root₂ : RootState),
      (fns.any (fun fn => !(stripStr fn).isEmpty) && !(stripStr kws).isEmpty &&
       !(cleanKeywords kws).isEmpty) = false →
      searchKnowledgeContent fns kws k cs mx root₁ =
        searchKnowledgeContent fns kws k cs mx root₂) ∧
    (∀ (kws : Str) (fts : List Str) (mx : Nat) (sc cs : Bool) (root : RootState),
      (searchKnowledgeFile kws fts mx sc cs root).isSuccess =
        (!(stripStr kws).isEmpty && !(cleanKeywords kws).isEmpty && isDirB root)) ∧
    (∀ (kws : Str) (fts : List Str) (mx : Nat) (sc cs : Bool) (root₁ root₂ : RootState),
      (!(stripStr kws).isEmpty && !(cleanKeywords kws).isEmpty) = false →
      searchKnowledgeFile kws fts mx sc cs root₁ =
        searchKnowledgeFile kws fts mx sc cs root₂) := by
  refine ⟨?_, ?_, ?_, ?_⟩
  · intro fns kws k cs mx root
    unfold searchKnowledgeContent
    split
    · simp_all [ContentResponse.isSuccess]
    · split
      · simp_all [ContentResponse.isSuccess]
      · split
        · simp_all [ContentResponse.isSuccess]
        · split <;> simp_all [ContentResponse.isSuccess, isDirB]
  · intro fns kws k cs mx root₁ root₂ hpre
    unfold searchKnowledgeContent
    by_cases h1 : fns.any (fun fn => !(stripStr fn).isEmpty) = true
    · rw [if_neg (not_not_intro h1), if_neg (not_not_intro h1)]
      by_cases h2 : (stripStr kws).isEmpty = true
      · rw [if_pos h2, if_pos h2]
      · rw [if_neg h2, if_neg h2]
        by_cases h3 : (cleanKeywords kws).isEmpty = true
        · rw [if_pos h3, if_pos h3]
        · exfalso
          simp [h1, h2, h3] at hpre
    · rw [if_pos (by simpa using h1), if_pos (by simpa using h1)]
  · intro kws fts mx sc cs root
    unfold searchKnowledgeFile
    split
    · simp_all [FVResponse.isSuccess]
    · split
      · simp_all [FVResponse.isSuccess]
      · split <;> simp_all [FVResponse.isSuccess, isDirB]
  · intro kws fts mx sc cs root₁ root₂ hpre
    unfold searchKnowledgeFile
    by_cases h2 : (stripStr kws).isEmpty = true
    · rw [if_pos h2, if_pos h2]
    · rw [if_neg h2, if_neg h2]
      by_cases h3 : (cleanKeywords kws).isEmpty = true
      · rw [if_pos h3, if_pos h3]
      · exfalso
        simp [h2, h3] at hpre

/-- Witness for C8: concrete rejected and accepted requests of both variants. -/
theorem claimC8_witness :
    (searchKnowledgeContent [] "k".toList 3 false 10 RootState.missing).isSuccess = false ∧
    (searchKnowledgeContent ["txt".toList] "k".toList 3 false 10 rootA).isSuccess = true ∧
    searchKnowledgeContent ["txt".toList] " ".toList 3 false 10 RootState.missing =
      searchKnowledgeContent ["txt".toList] " ".toList 3 false 10 rootA ∧
    (searchKnowledgeFile "k".toList [] 20 true false RootState.notDir).isSuccess = false ∧
    (searchKnowledgeFile "k".toList [] 20 true false rootA).isSuccess = true ∧
    searchKnowledgeFile " ".toList [] 20 true false RootState.missing =
      searchKnowledgeFile " ".toList [] 20 true false rootA := by
  refine ⟨?_, ?_, claimC8.2.1 ["txt".toList] " ".toList 3 false 10 _ _ (by decide),
    ?_, ?_, claimC8.2.2.2 " ".toList [] 20 true false _ _ (by decide)⟩
  · rw [claimC8.1]
    decide
  · rw [claimC8.1]
    decide
  · rw [claimC8.2.2.1]
    decide
  · rw [claimC8.2.2.1]
    decide

theorem stepFile_scanned (P : FVParams) (path n : Str) (d : FileData) (s : ScanState) :
    (stepFile P path n d s).scanned = s.scanned + 1 := by
  simp only [stepFile]
  split
  · rfl
  · split
    · rfl
    · rfl

theorem stepFile_found_le (P : FVParams) (path n : Str) (d : FileData) (s : ScanState) :
    (stepFile P path n d s).found.length ≤ s.found.length + 1 := by
  simp only [stepFile]
  split
  · simp
  · split
    · simp
    · simp

theorem scanList_count (P : FVParams) :
    ∀ (path : Str) (es : List FSEntry) (s : ScanState),
      s.found.length + countScannableList es ≤ P.maxResults →
      (scanList P path es s).scanned = s.scanned + countScannableList es ∧
      (scanList P path es s).found.length ≤ s.found.length + countScannableList es := by
  intro path es s
  induction path, es, s using scanList.induct P with
  | case1 path s =>
    intro h
    rw [scanList]
    simp [countScannableList]
  | case2 path n d rest s hcap =>
    intro h
    have hs : scanList P path (FSEntry.file n d :: rest) s = s := by
      rw [scanList, if_pos hcap]
    rw [hs]
    by_cases hn : n.head? = some '.'
    · have hcnt : countScannableList (FSEntry.file n d :: rest) = countScannableList rest := by
        rw [countScannableList, if_pos hn]
        omega
      omega
    · have hcnt : countScannableList (FSEntry.file n d :: rest)
          = 1 + countScannableList rest := by
        rw [countScannableList, if_neg hn]
      omega
  | case3 path n d rest s hcap ih =>
    intro h
    have hs : scanList P path (FSEntry.file n d :: rest) s =
        scanList P path rest (if n.head? = some '.' then s else stepFile P path n d s) := by
      rw [scanList, if_neg hcap]
    rw [hs]
    by_cases hn : n.head? = some '.'
    · have hcnt : countScannableList (FSEntry.file n d :: rest) = countScannableList rest := by
        rw [countScannableList, if_pos hn]
        omega
      rw [dif_pos hn] at ih
      rw [if_pos hn]
      obtain ⟨ih1, ih2⟩ := ih (by omega)
      omega
    · have hcnt : countScannableList (FSEntry.file n d :: rest)
          = 1 + countScannableList rest := by
        rw [countScannableList, if_neg hn]
      rw [dif_neg hn] at ih
      rw [if_neg hn]
      have hsc := stepFile_scanned P path n d s
      have hfl := stepFile_found_le P path n d s
      obtain ⟨ih1, ih2⟩ := ih (by omega)
      omega
  | case4 path n r ch rest s hcap =>
    intro h
    have hs : scanList P path (FSEntry.dir n r ch :: rest) s = s := by
      rw [scanList, if_pos hcap]
    rw [hs]
    by_cases hn : n.head? = some '.'
    · have hcnt : countScannableList (FSEntry.dir n r ch :: rest)
          = countScannableList rest := by
        rw [countScannableList, if_pos (Or.inl hn)]
        omega
      omega
    · by_cases hr : r = true
      · have hcnt : countScannableList (FSEntry.dir n r ch :: rest)
            = countScannableList ch + countScannableList rest := by
          rw [countScannableList, if_neg (by simp [hn, hr])]
        omega
      · have hcnt : countScannableList (FSEntry.dir n r ch :: rest)
            = countScannableList rest := by
          rw [countScannableList, if_pos (Or.inr hr)]
          omega
        omega
  | case5 path n r ch rest s hcap ihch ihrest =>
    intro h
    have hs : scanList P path (FSEntry.dir n r ch :: rest) s =
        scanList P path rest
          (if n.head? = some '.' then s
           else if r then scanList P (joinPath path n) ch s else s) := by
      rw [scanList, if_neg hcap]
    rw [hs]
    by_cases hn : n.head? = some '.'
    · have hcnt : countScannableList (FSEntry.dir n r ch :: rest)
          = countScannableList rest := by
        rw [countScannableList, if_pos (Or.inl hn)]
        omega
      rw [dif_pos hn] at ihrest
      rw [if_pos hn]
      obtain ⟨ir1, ir2⟩ := ihrest (by omega)
      omega
    · rw [dif_neg hn] at ihrest
      rw [if_neg hn]
      by_cases hr : r = true
      · have hcnt : countScannableList (FSEntry.dir n r ch :: rest)
            = countScannableList ch + countScannableList rest := by
          rw [countScannableList, if_neg (by simp [hn, hr])]
        rw [dif_pos hr] at ihrest
        rw [if_pos hr]
        obtain ⟨ic1, ic2⟩ := ihch (by omega)
        obtain ⟨ir1, ir2⟩ := ihrest (by omega)
        omega
      · have hcnt : countScannableList (FSEntry.dir n r ch :: rest)
            = countScannableList rest := by
          rw [countScannableList, if_pos (Or.inr hr)]
          omega
        rw [dif_neg hr] at ihrest
        rw [if_neg hr]
        obtain ⟨ir1, ir2⟩ := ihrest (by omega)
        omega

theorem processCandidate_some {kws : List Str} {k : Nat} {cs : Bool} {mx : Nat}
    {f : CandFile}
    (hne : ¬ (deepExtractContent (lowerStr (fileSuffix f.name)) f.data kws k cs mx).isEmpty
      = true) :
    processCandidate kws k cs mx f = some
      { fileInfo := { name := f.name, path := f.path, fileType := fileTypeOf f.name },
        contentMatches := deepExtractContent (lowerStr (fileSuffix f.name)) f.data kws k cs mx,
        summary :=
          { totalMatches :=
              (deepExtractContent (lowerStr (fileSuffix f.name)) f.data kws k cs mx).length,
            uniqueKeywords :=
              ((deepExtractContent (lowerStr (fileSuffix f.name)) f.data kws k cs mx).map
                (fun m => m.keyword)).dedup,
            avgRelevanceScore :=
              round3 (((deepExtractContent (lowerStr (fileSuffix f.name)) f.data kws k cs
                mx).map (fun m => m.relevance.score)).sum /
                ((deepExtractContent (lowerStr (fileSuffix f.name)) f.data kws k cs
                  mx).length : ℚ)) } } := by
  simp only [processCandidate]
  rw [if_neg hne]

/-- Claim C5: statistics are computed over the pre-truncation candidate set —
the file-level scanned counter counts every examined candidate including
zero-match files (exactly the reachable non-hidden files whenever the global
cap is not hit), and the global cap truncates the result list only in the
file-level variant: the content-level search reports every candidate in its
scanned count and returns every file with at least one match, with no global
cap. -/
theorem claimC5 :
    (∀ (kws : Str) (fts : List Str) (mx : Nat) (sc cs : Bool) (root : RootState),
      (fvResults (searchKnowledgeFile kws fts mx sc cs root)).length ≤ mx) ∧
    (∀ (kws : Str) (fts : List Str) (mx : Nat) (sc cs : Bool) (children : List FSEntry),
      (searchKnowledgeFile kws fts mx sc cs (RootState.present children true)).isSuccess
        = true →
      countScannableList children ≤ mx →
      fvScanned (searchKnowledgeFile kws fts mx sc cs (RootState.present children true)) =
        countScannableList children) ∧
    (∀ (fns : List Str) (kws : Str) (k : Nat) (cs : Bool) (mx : Nat) (root : RootState),
      (searchKnowledgeContent fns kws k cs mx root).isSuccess = true →
      (contentStats (searchKnowledgeContent fns kws k cs mx root)).totalFilesScanned =
        (contentCandidates fns root).length) ∧
    (∀ (fns : List Str) (kws : Str) (k : Nat) (cs : Bool) (mx : Nat) (root : RootState)
        (f : CandFile),
      f ∈ contentCandidates fns root →
      (searchKnowledgeContent fns kws k cs mx root).isSuccess = true →
      ¬ (deepExtractContent (lowerStr (fileSuffix f.name)) f.data (cleanKeywords kws)
          k cs mx).isEmpty = true →
      ∃ r ∈ contentResults (searchKnowledgeContent fns kws k cs mx root),
        r.fileInfo.path = f.path ∧
        r.contentMatches = deepExtractContent (lowerStr (fileSuffix f.name)) f.data
          (cleanKeywords kws) k cs mx) := by
  refine ⟨?_, ?_, ?_, ?_⟩
  · intro kws fts mx sc cs root
    unfold searchKnowledgeFile
    split
    · simp [fvResults]
    · split
      · simp [fvResults]
      · split
        · simp [fvResults]
        · simp [fvResults]
        · simp only [fvResults]
          simp
  · intro kws fts mx sc cs children hsucc hcnt
    unfold searchKnowledgeFile at hsucc ⊢
    split at hsucc
    · simp [FVResponse.isSuccess] at hsucc
    · rename_i h1
      split at hsucc
      · simp [FVResponse.isSuccess] at hsucc
      · rename_i h2
        rw [if_neg h1, if_neg h2]
        simp only [fvScanned]
        have := scanList_count
          ⟨cleanKeywords kws,
            if fts.isEmpty then []
            else fts.map (fun ft => lowerStr (if ft.head? = some '.' then ft else '.' :: ft)),
            mx, sc, cs⟩ knowledgeBaseDir children ⟨[], 0⟩ (by simpa using hcnt)
        simpa using this.1
  · intro fns kws k cs mx root hsucc
    unfold searchKnowledgeContent at hsucc ⊢
    split at hsucc
    · simp [ContentResponse.isSuccess] at hsucc
    · rename_i h1
      split at hsucc
      · simp [ContentResponse.isSuccess] at hsucc
      · rename_i h2
        split at hsucc
        · simp [ContentResponse.isSuccess] at hsucc
        · rename_i h3
          rw [if_neg h1, if_neg h2, if_neg h3]
          cases root with
          | missing => simp [ContentResponse.isSuccess] at hsucc
          | notDir => simp [ContentResponse.isSuccess] at hsucc
          | present children rr => simp [contentStats]
  · intro fns kws k cs mx root f hf hsucc hne
    unfold searchKnowledgeContent at hsucc ⊢
    split at hsucc
    · simp [ContentResponse.isSuccess] at hsucc
    · rename_i h1
      split at hsucc
      · simp [ContentResponse.isSuccess] at hsucc
      · rename_i h2
        split at hsucc
        · simp [ContentResponse.isSuccess] at hsucc
        · rename_i h3
          rw [if_neg h1, if_neg h2, if_neg h3]
          cases root with
          | missing => simp [ContentResponse.isSuccess] at hsucc
          | notDir => simp [ContentResponse.isSuccess] at hsucc
          | present children rr =>
            simp only [contentResults]
            exact ⟨_, List.mem_filterMap.mpr ⟨f, hf, processCandidate_some hne⟩, rfl, rfl⟩

/-- Witness for C5 at concrete one-file trees. -/
theorem claimC5_witness :
    (fvResults (searchKnowledgeFile "k".toList [] 20 true false rootA)).length ≤ 20 ∧
    fvScanned (searchKnowledgeFile "k".toList [] 20 true false
      (RootState.present [FSEntry.file "a.txt".toList (FileData.text ["Kx".toList])] true)) =
      countScannableList [FSEntry.file "a.txt".toList (FileData.text ["Kx".toList])] ∧
    (contentStats (searchKnowledgeContent ["txt".toList] "K".toList 3 false 10
      rootA)).totalFilesScanned = (contentCandidates ["txt".toList] rootA).length ∧
    rA ∈ contentResults (searchKnowledgeContent ["txt".toList] "K".toList 3 false 10 rootA) ∧
    rA.fileInfo.path = candA.path ∧
    rA.contentMatches = deepExtractContent (lowerStr (fileSuffix candA.name)) candA.data
      (cleanKeywords "K".toList) 3 false 10 := by
  have hcnt : countScannableList [FSEntry.file "a.txt".toList (FileData.text ["Kx".toList])]
      = 1 := by
    rw [countScannableList, if_neg (by decide), countScannableList]
  refine ⟨claimC5.1 "k".toList [] 20 true false rootA, ?_, ?_, ?_⟩
  · exact claimC5.2.1 "k".toList [] 20 true false
      [FSEntry.file "a.txt".toList (FileData.text ["Kx".toList])] rfl (by rw [hcnt]; omega)
  · exact claimC5.2.2.1 ["txt".toList] "K".toList 3 false 10 rootA rfl
  · have hne : ¬ (deepExtractContent (lowerStr (fileSuffix candA.name)) candA.data
        (cleanKeywords "K".toList) 3 false 10).isEmpty = true := by
      rw [show lowerStr (fileSuffix candA.name) = ".txt".toList from by decide,
        show candA.data = FileData.text ["Kx".toList] from rfl,
        show cleanKeywords "K".toList = ["K".toList] from rfl, deepEvalA]
      decide
    have hf : candA ∈ contentCandidates ["txt".toList] rootA := by
      rw [candEvalA]
      exact List.mem_singleton.mpr rfl
    obtain ⟨r, hr, hp, hc⟩ :=
      claimC5.2.2.2 ["txt".toList] "K".toList 3 false 10 rootA candA hf rfl hne
    rw [contentResultsEvalA] at hr
    obtain rfl := List.mem_singleton.mp hr
    exact ⟨by rw [contentResultsEvalA]; exact List.mem_singleton.mpr rfl, hp, hc⟩
